import Mathlib

/-!
Verification development for the in-memory messaging store
(`src/lib/Store/make-in-memory-store.js`).

The JavaScript store keeps its collections in plain objects and two keyed
collections.  We embed JS objects as association lists over `String` keys
(insertion ordered, unique keys maintained by the operations), and embed the
event handlers registered by `bind` as a pure step function on a `Store`
record.
-/

set_option autoImplicit false

/-! ## Association lists: the embedding of plain JS objects -/

section Assoc

variable {α : Type}

/-- Lookup of a key in a JS object (first entry with the key). -/
def lookupA : List (String × α) → String → Option α
  | [], _ => none
  | p :: rest, k => if p.1 = k then some p.2 else lookupA rest k

/-- `obj[k] = v` on a JS object: replace the value in place when the key is
already present, otherwise append the new key at the end (JS insertion
order). -/
def setEntryA : List (String × α) → String → α → List (String × α)
  | [], k, v => [(k, v)]
  | p :: rest, k, v => if p.1 = k then (k, v) :: rest else p :: setEntryA rest k v

/-- `delete obj[k]` on a JS object. -/
def eraseA : List (String × α) → String → List (String × α)
  | [], _ => []
  | p :: rest, k => if p.1 = k then eraseA rest k else p :: eraseA rest k

/-- `Object.assign(b, u)`: copy every key of `u` into `b`, in order. -/
def objectAssignA (b u : List (String × α)) : List (String × α) :=
  u.foldl (fun b p => setEntryA b p.1 p.2) b

/-- Membership of a key in a plain list of keys. -/
def memS : List String → String → Bool
  | [], _ => false
  | x :: xs, k => if x = k then true else memS xs k

theorem lookupA_setEntryA_self (m : List (String × α)) (k : String) (v : α) :
    lookupA (setEntryA m k v) k = some v := by
  induction m with
  | nil => simp [setEntryA, lookupA]
  | cons p rest ih =>
    by_cases h : p.1 = k
    · simp [setEntryA, h, lookupA]
    · simp [setEntryA, h, lookupA, ih]

theorem lookupA_setEntryA_ne (m : List (String × α)) (k k' : String) (v : α)
    (h : k ≠ k') : lookupA (setEntryA m k v) k' = lookupA m k' := by
  induction m with
  | nil => simp [setEntryA, lookupA, h]
  | cons p rest ih =>
    by_cases hp : p.1 = k
    · simp [setEntryA, hp, lookupA, h]
    · by_cases hp' : p.1 = k'
      · simp [setEntryA, hp, lookupA, hp', Ne.symm h]
      · simp [setEntryA, hp, lookupA, hp', ih]

theorem lookupA_eraseA_self (m : List (String × α)) (k : String) :
    lookupA (eraseA m k) k = none := by
  induction m with
  | nil => simp [eraseA, lookupA]
  | cons p rest ih =>
    by_cases h : p.1 = k
    · simp [eraseA, h, ih]
    · simp [eraseA, h, lookupA, ih]

theorem lookupA_eraseA_ne (m : List (String × α)) (k k' : String) (h : k ≠ k') :
    lookupA (eraseA m k) k' = lookupA m k' := by
  induction m with
  | nil => simp [eraseA]
  | cons p rest ih =>
    by_cases hp : p.1 = k
    · have hp' : p.1 ≠ k' := by simpa [hp] using h
      simp [eraseA, hp, lookupA, hp', ih, h]
    · by_cases hp' : p.1 = k'
      · simp [eraseA, hp, lookupA, hp', Ne.symm h]
      · simp [eraseA, hp, lookupA, hp', ih]

theorem length_setEntryA_of_present (m : List (String × α)) (k : String) (v : α)
    (h : (lookupA m k).isSome) : (setEntryA m k v).length = m.length := by
  induction m with
  | nil => simp [lookupA] at h
  | cons p rest ih =>
    by_cases hp : p.1 = k
    · simp [setEntryA, hp]
    · simp only [lookupA, hp, if_false] at h
      simp [setEntryA, hp, ih h]

theorem length_setEntryA_of_absent (m : List (String × α)) (k : String) (v : α)
    (h : lookupA m k = none) : (setEntryA m k v).length = m.length + 1 := by
  induction m with
  | nil => simp [setEntryA]
  | cons p rest ih =>
    by_cases hp : p.1 = k
    · simp [lookupA, hp] at h
    · simp only [lookupA, hp, if_false] at h
      simp [setEntryA, hp, ih h]

theorem length_eraseA_le (m : List (String × α)) (k : String) :
    (eraseA m k).length ≤ m.length := by
  induction m with
  | nil => simp [eraseA]
  | cons p rest ih =>
    by_cases hp : p.1 = k
    · simp only [eraseA, hp, if_true]
      exact Nat.le_succ_of_le ih
    · simpa [eraseA, hp] using ih

theorem memS_iff (ks : List String) (k : String) : memS ks k = true ↔ k ∈ ks := by
  induction ks with
  | nil => simp [memS]
  | cons x xs ih =>
    by_cases h : x = k
    · simp [memS, h]
    · simp [memS, h, ih, Ne.symm h]

end Assoc

/-! ## Entity records (data model of the store) -/

/-- The `key` object of a WhatsApp message. -/
structure MsgKey where
  remoteJid : String
  id : String
  fromMe : Bool
deriving DecidableEq, Repr

/-- A message: the identity key plus opaque content. -/
structure WAMessage where
  key : MsgKey
  content : String
deriving DecidableEq, Repr

/-- `waMessageID` (source line 15): a message is identified by `m.key.id`. -/
def waMessageID (m : WAMessage) : String := m.key.id

/-- A chat record with the fields used by the store's handlers and sort key. -/
structure Chat where
  id : String
  pinned : Bool
  archived : Bool
  conversationTimestamp : Option Nat
  unreadCount : Option Int
  name : Option String
deriving DecidableEq, Repr

/-- A partial `chats.update` payload: absent fields are `none`. -/
structure ChatUpdate where
  id : String
  pinned : Option Bool
  archived : Option Bool
  conversationTimestamp : Option Nat
  unreadCount : Option Int
  name : Option String
deriving DecidableEq, Repr

/-- A contact record (possibly partial, as delivered by events). -/
structure Contact where
  id : String
  name : Option String
  imgUrl : Option String
deriving DecidableEq, Repr

/-- A partial `contacts.update` payload. -/
structure ContactUpdate where
  id : String
  name : Option String
  imgUrl : Option String
deriving DecidableEq, Repr

/-- A label record (`labels.edit` payload). -/
structure Label where
  id : String
  name : String
  deleted : Bool
deriving DecidableEq, Repr

/-- A label-association row. -/
structure LabelAssociation where
  laType : String
  chatId : String
  messageId : Option String
  labelId : String
deriving DecidableEq, Repr

/-! ## The chat sort key (`waChatKey`, source lines 10-13) -/

/-- One hexadecimal digit, lowercase, as produced by JS `Number.toString(16)`. -/
def hexChar (n : Nat) : Char :=
  if n < 10 then Char.ofNat (48 + n) else Char.ofNat (87 + n)

/-- Fuelled hexadecimal rendering; `fuel` bounds the recursion depth so the
definition is structural (and kernel-reducible). -/
def hexRepAux : Nat → Nat → List Char
  | 0, _ => []
  | fuel + 1, n =>
    if n < 16 then [hexChar n] else hexRepAux fuel (n / 16) ++ [hexChar (n % 16)]

/-- JS `n.toString(16)` for a natural number: `n + 1` units of fuel always
suffice since a number has at most `n + 1` hex digits. -/
def hexRep (n : Nat) : List Char := hexRepAux (n + 1) n

/-- JS `String.prototype.padStart(width, c)`. -/
def padStart (s : List Char) (width : Nat) (c : Char) : List Char :=
  List.replicate (width - s.length) c ++ s

/-- The timestamp component of the chat key: JS
`c.conversationTimestamp ? c.conversationTimestamp.toString(16).padStart(8, '0') : ''`
(note that both an absent and a zero timestamp are falsy and give `''`). -/
def chatTsKey (c : Chat) : String :=
  match c.conversationTimestamp with
  | some t => if t = 0 then "" else ⟨padStart (hexRep t) 8 '0'⟩
  | none => ""

/-- The pin component: `pin ? (c.pinned ? '1' : '0') : ''`. -/
def pinBit (pin : Bool) (c : Chat) : String :=
  if pin then (if c.pinned then "1" else "0") else ""

/-- The archive component: `c.archived ? '0' : '1'`. -/
def archBit (c : Chat) : String := if c.archived then "0" else "1"

/-- `waChatKey(pin).key` (source line 11): the composite sort key
`{pinBit}{archiveBit}{timestampHex}{id}` (the pin bit only when `pin`). -/
def waChatKey (pin : Bool) (c : Chat) : String :=
  pinBit pin c ++ archBit c ++ chatTsKey c ++ c.id

/-! ## The chat collection

`chats` is a `KeyedDB` ordered by `waChatKey`; the package itself is outside
the repository.  Modelled from the spec: `OrderedKeyedCollection` is a set of
entities uniquely keyed by id with `insertIfAbsent` (skips existing ids),
`upsert` (insert or fully replace), `update(id, mutator)` (mutate the existing
item, failure when the id is absent), `deleteById`, `get` and `clear`.  The
iteration order by sort key is not needed by any operation below, so the
collection is embedded as a list of chats with unique ids. -/

/-- `chats.get(id)`. -/
def chatsGet : List Chat → String → Option Chat
  | [], _ => none
  | c :: rest, id => if c.id = id then some c else chatsGet rest id

/-- `chats.insertIfAbsent(...cs)`: insert each chat whose id is not yet
present; already-known ids are skipped. -/
def chatsInsertIfAbsent (db : List Chat) (cs : List Chat) : List Chat :=
  cs.foldl (fun db c => if (chatsGet db c.id).isSome then db else db ++ [c]) db

/-- `chats.upsert(c)`: insert or fully replace by id. -/
def chatsUpsertOne : List Chat → Chat → List Chat
  | [], c => [c]
  | x :: rest, c => if x.id = c.id then c :: rest else x :: chatsUpsertOne rest c

/-- `chats.upsert(...cs)`. -/
def chatsUpsertAll (db : List Chat) (cs : List Chat) : List Chat :=
  cs.foldl chatsUpsertOne db

/-- `chats.deleteById(id)`. -/
def chatsErase : List Chat → String → List Chat
  | [], _ => []
  | c :: rest, id => if c.id = id then chatsErase rest id else c :: chatsErase rest id

/-! ## The per-chat message lists

`makeOrderedDictionary` is a repository file absent from `src/`.  Modelled
from the spec: `OrderedAppendCollection` keyed by message id;
`upsert(item, direction)` inserts an unknown id at the front (`prepend`) or
back (`append`) and replaces the content of a known id in place without
changing its position. -/

/-- `list.upsert(m, direction)` on one chat's message list
(`prepend = true` for the `'prepend'` direction). -/
def msgUpsert (list : List WAMessage) (m : WAMessage) (prepend : Bool) :
    List WAMessage :=
  if list.any (fun x => waMessageID x == waMessageID m) then
    list.map (fun x => if waMessageID x = waMessageID m then m else x)
  else if prepend then m :: list else list ++ [m]

/-! ## The label repository

`ObjectRepository` is a repository file absent from `src/`.  Modelled from the
spec: a plain id-keyed store whose `upsertById(id, item)` inserts or replaces,
rejecting an insert of a new id when the count is already 20; `deleteById`
removes unconditionally if present; `count()` is the number of stored items. -/

def repoCount {α : Type} (repo : List (String × α)) : Nat := repo.length

def repoUpsertById {α : Type} (repo : List (String × α)) (id : String) (item : α) :
    List (String × α) :=
  if (lookupA repo id).isSome then setEntryA repo id item
  else if repoCount repo < 20 then repo ++ [(id, item)]
  else repo

def repoDeleteById {α : Type} (repo : List (String × α)) (id : String) :
    List (String × α) :=
  eraseA repo id

/-! ## JID decoding

`jidDecode` lives in `../WABinary`, absent from `src/`.  Modelled from the
spec: a JID has the form `user@server` and `jidDecode` splits it into an
object carrying the normalized user-identifier portion (`user`) and the
server; an input without `@` does not decode.  The handler at source line 109
destructures the result (`const { user } = jidDecode(contactId)`), so the
decode of a valid JID is an object, not a string. -/

structure JidDecoded where
  user : String
  server : String
deriving DecidableEq, Repr

/-- Split a character list at the first `'@'` (JS `indexOf('@')`). -/
def splitFirstAt : List Char → Option (List Char × List Char)
  | [] => none
  | c :: rest =>
    if c = '@' then some ([], rest)
    else
      match splitFirstAt rest with
      | some (u, s) => some (c :: u, s)
      | none => none

def jidDecode (jid : String) : Option JidDecoded :=
  match splitFirstAt jid.data with
  | some (u, s) => some ⟨⟨u⟩, ⟨s⟩⟩
  | none => none

/-- The `user` portion of a contact id, as destructured at source line 109. -/
def jidUser (jid : String) : String := ((jidDecode jid).map (·.user)).getD ""

/-- JS coercion of a property key: `messages[k]` converts a non-string `k`
with its default `toString`, so a plain decoded-JID object becomes
`"[object Object]"` and `undefined` becomes `"undefined"` (source line 188
indexes `messages` with the object returned by `jidDecode`). -/
def jsKeyOfDecoded : Option JidDecoded → String
  | some _ => "[object Object]"
  | none => "undefined"

/-! ## Handler bodies (the `bind` dispatch table, source lines 65-202) -/

/-- `connection.update` (source lines 66-72): a falsy payload is rejected with
a log; otherwise `Object.assign(state, update)`. -/
def applyConnectionUpdate (st : List (String × String)) :
    Option (List (String × String)) → List (String × String)
  | none => st
  | some u => objectAssignA st u

/-- `{...contacts[contact.id] || {}, ...contact}` (source line 54): shallow
spread of the incoming contact over the stored one. -/
def spreadContact (old : Option Contact) (c : Contact) : Contact :=
  match old with
  | none => c
  | some o =>
    { id := c.id
      name := match c.name with | some n => some n | none => o.name
      imgUrl := match c.imgUrl with | some u => some u | none => o.imgUrl }

/-- The merge loop of `contactsUpsert` (source lines 50-57), without the
returned `oldContacts` set (computed separately by `survivorKeys`). -/
def contactsUpsertFn (contacts : List (String × Contact)) (ncs : List Contact) :
    List (String × Contact) :=
  ncs.foldl (fun m c => setEntryA m c.id (spreadContact (lookupA m c.id) c)) contacts

/-- Does the batch contain a contact with this id? -/
def batchHasId : List Contact → String → Bool
  | [], _ => false
  | c :: rest, k => if c.id = k then true else batchHasId rest k

/-- The `oldContacts` set returned by `contactsUpsert`: the keys known before
the merge, minus every id occurring in the batch. -/
def survivorKeys (contacts : List (String × Contact)) (ncs : List Contact) :
    List String :=
  (contacts.map (·.1)).filter (fun k => !batchHasId ncs k)

/-- `messaging-history.set` message loop body: get-or-create the list for
`msg.key.remoteJid` and upsert with `'prepend'` (source lines 90-94). -/
def historyMsgStep (mm : List (String × List WAMessage)) (m : WAMessage) :
    List (String × List WAMessage) :=
  setEntryA mm m.key.remoteJid
    (msgUpsert ((lookupA mm m.key.remoteJid).getD []) m true)

/-- The fingerprint computed at source lines 108-111:
`md5(user + 'WA_ADD_NOTIF').toString('base64').slice(0, 3)`.  `md5` lives in
`../Utils`, absent from `src/`; the digest-plus-base64 step is therefore a
parameter `dg`, and the fingerprint takes its first 3 characters as the spec
describes. -/
def fingerprintOf (dg : String → String) (contactId : String) : String :=
  (dg (jidUser contactId ++ "WA_ADD_NOTIF")).take 3

/-- Find a contact with this fingerprint (first match in insertion order). -/
def findByFp (dg : String → String) : List (String × Contact) → String → Option String
  | [], _ => none
  | p :: rest, uid =>
    if fingerprintOf dg p.1 = uid then some p.1 else findByFp dg rest uid

/-- Contact resolution of `contacts.update` (source lines 104-113): a direct
id match wins; otherwise the first fingerprint match; a miss falls back to
`contacts['']` (the `|| ''` at line 112), which resolves only if a contact is
stored under the empty key. -/
def findContactKey (dg : String → String) (contacts : List (String × Contact))
    (uid : String) : Option String :=
  if (lookupA contacts uid).isSome then some uid
  else
    let key := (findByFp dg contacts uid).getD ""
    if (lookupA contacts key).isSome then some key else none

/-- The imgUrl sentinel handling (source lines 114-119), applied in place to
the matched contact: `'changed'` stores the collaborator's answer
(`undefined` when the socket is absent), `'removed'` deletes the field, any
other value leaves it untouched. -/
def applySentinel (sock : Option (String → Option String)) (c : Contact)
    (u : ContactUpdate) : Contact :=
  if u.imgUrl = some "changed" then
    { c with imgUrl := match sock with | some f => f c.id | none => none }
  else if u.imgUrl = some "removed" then { c with imgUrl := none }
  else c

/-- The `contacts.update` loop (source lines 102-126).  A matched contact is
mutated in place by the sentinel handling; the final
`Object.assign(contacts[contact.id], contact)` at line 124 copies the mutated
contact onto itself, so the update's remaining fields are never merged.  An
unmatched update logs and `return`s, ending the whole loop. -/
def contactsUpdateLoop (dg : String → String) (sock : Option (String → Option String)) :
    List (String × Contact) → List ContactUpdate → List (String × Contact)
  | cts, [] => cts
  | cts, u :: rest =>
    match findContactKey dg cts u.id with
    | some key =>
      match lookupA cts key with
      | some c => contactsUpdateLoop dg sock (setEntryA cts key (applySentinel sock c u)) rest
      | none => cts
    | none => cts

/-- The mutator passed to `chats.update` (source lines 134-140): a positive
incoming `unreadCount` is added to the stored one, any other present value
overwrites literally; then `Object.assign(chat, update)`. -/
def applyChatUpdate (chat : Chat) (u : ChatUpdate) : Chat :=
  { id := chat.id
    pinned := match u.pinned with | some b => b | none => chat.pinned
    archived := match u.archived with | some b => b | none => chat.archived
    conversationTimestamp :=
      match u.conversationTimestamp with | some t => some t | none => chat.conversationTimestamp
    unreadCount :=
      match u.unreadCount with
      | some v => some (if v > 0 then chat.unreadCount.getD 0 + v else v)
      | none => chat.unreadCount
    name := match u.name with | some n => some n | none => chat.name }

/-- `chats.update` applied through `KeyedDB.update`: mutate the stored chat
when the id is known. -/
def chatsMutate : List Chat → ChatUpdate → List Chat
  | [], _ => []
  | c :: rest, u =>
    if c.id = u.id then applyChatUpdate c u :: rest else c :: chatsMutate rest u

/-- One `chats.update` entry (source lines 133-144): when the chat is absent
the update only logs — nothing is mutated and no chat is created. -/
def applyChatsUpdateOne (db : List Chat) (u : ChatUpdate) : List Chat :=
  if (chatsGet db u.id).isSome then chatsMutate db u else db

/-- `labels.edit` (source lines 147-155): a deleted label is removed
unconditionally; otherwise the upsert runs only while the stored count is
below 20, else the event only logs `Labels count exceeded`. -/
def applyLabelsEdit (labels : List (String × Label)) (l : Label) :
    List (String × Label) :=
  if l.deleted then repoDeleteById labels l.id
  else if repoCount labels < 20 then repoUpsertById labels l.id l
  else labels

/-- `waLabelAssociationKey.key` (source lines 17-20); a missing `messageId`
concatenates as the string `"undefined"` in JS. -/
def laKey (la : LabelAssociation) : String :=
  if la.laType = "chat" then la.chatId ++ la.labelId
  else la.chatId ++ la.messageId.getD "undefined" ++ la.labelId

/-- `labels.association` (source lines 157-168). -/
def applyLabelsAssociation (las : List (String × LabelAssociation))
    (t : String) (a : LabelAssociation) : List (String × LabelAssociation) :=
  if t = "add" then setEntryA las (laKey a) a
  else if t = "remove" then eraseA las (laKey a)
  else las

/-! ## The store and the event dispatch -/

/-- The collections owned by one store instance (source lines 34-41). -/
structure Store where
  chats : List Chat
  messages : List (String × List WAMessage)
  contacts : List (String × Contact)
  presences : List (String × List (String × String))
  labels : List (String × Label)
  labelAssociations : List (String × LabelAssociation)
  connState : List (String × String)
deriving DecidableEq, Repr

/-- The store before any event: every collection empty except the connection
state, initialised to `{ connection: 'close' }` (source line 39). -/
def initStore : Store :=
  { chats := []
    messages := []
    contacts := []
    presences := []
    labels := []
    labelAssociations := []
    connState := [("connection", "close")] }

/-- The event kinds consumed by `bind` (source lines 65-202), with their
payloads. -/
inductive StoreEvent where
  | connectionUpdate (update : Option (List (String × String)))
  | messagingHistorySet (newChats : List Chat) (newContacts : List Contact)
      (newMessages : List WAMessage) (isLatest : Bool)
  | contactsUpsertEv (cs : List Contact)
  | contactsUpdateEv (us : List ContactUpdate)
  | chatsUpsertEv (cs : List Chat)
  | chatsUpdateEv (us : List ChatUpdate)
  | labelsEdit (l : Label)
  | labelsAssociation (t : String) (a : LabelAssociation)
  | presenceUpdate (id : String) (ps : List (String × String))
  | chatsDelete (ids : List String)
  | messagesUpsert (msgs : List WAMessage) (t : String)

/-- `messaging-history.set` (source lines 74-96): on `isLatest` first clear
the chat collection and drop every message list; then `insertIfAbsent` the
chats, merge the contacts (deleting, on `isLatest`, every previously known
contact id absent from the batch), and prepend the messages into their
chats' lists. -/
def applyHistorySet (s : Store) (nc : List Chat) (ncts : List Contact)
    (nms : List WAMessage) (isLatest : Bool) : Store :=
  let chats0 := if isLatest then [] else s.chats
  let msgs0 : List (String × List WAMessage) := if isLatest then [] else s.messages
  let chats1 := chatsInsertIfAbsent chats0 nc
  let cts1 := contactsUpsertFn s.contacts ncts
  let cts2 :=
    if isLatest then (survivorKeys s.contacts ncts).foldl eraseA cts1 else cts1
  let msgs1 := nms.foldl historyMsgStep msgs0
  { s with chats := chats1, contacts := cts2, messages := msgs1 }

/-- `messages.upsert` (source lines 183-201): for `append`/`notify` each
message is upserted with `'append'` direction into the list stored under the
property key produced by `jidDecode(msg.key.remoteJid)` (a non-string, hence
coerced); `notify` additionally synthesizes a minimal chat when none is
stored under that key (the internal `chats.upsert` emission at line 193). -/
def messagesUpsertStep (t : String) (st : Store) (m : WAMessage) : Store :=
  let jid := jsKeyOfDecoded (jidDecode m.key.remoteJid)
  let st' := { st with
    messages := setEntryA st.messages jid
      (msgUpsert ((lookupA st.messages jid).getD []) m false) }
  let placeholder : Chat :=
    { id := jid, pinned := false, archived := false,
      conversationTimestamp := none, unreadCount := none,
      name := some m.key.remoteJid }
  if t = "notify" ∧ (chatsGet st'.chats jid).isNone then
    { st' with chats := chatsUpsertAll st'.chats [placeholder] }
  else st'

def applyMessagesUpsert (s : Store) (msgs : List WAMessage) (t : String) : Store :=
  if t = "append" ∨ t = "notify" then msgs.foldl (messagesUpsertStep t) s
  else s

/-- One step of the reconciliation engine: the dispatch table of `bind`.
`dg` is the md5-base64 digest and `sock` the optional messaging socket, the
two external collaborators of `contacts.update`. -/
def applyEvent (dg : String → String) (sock : Option (String → Option String))
    (s : Store) : StoreEvent → Store
  | .connectionUpdate u => { s with connState := applyConnectionUpdate s.connState u }
  | .messagingHistorySet nc ncts nms latest => applyHistorySet s nc ncts nms latest
  | .contactsUpsertEv cs => { s with contacts := contactsUpsertFn s.contacts cs }
  | .contactsUpdateEv us => { s with contacts := contactsUpdateLoop dg sock s.contacts us }
  | .chatsUpsertEv cs => { s with chats := chatsUpsertAll s.chats cs }
  | .chatsUpdateEv us => { s with chats := us.foldl applyChatsUpdateOne s.chats }
  | .labelsEdit l => { s with labels := applyLabelsEdit s.labels l }
  | .labelsAssociation t a =>
    { s with labelAssociations := applyLabelsAssociation s.labelAssociations t a }
  | .presenceUpdate id ps =>
    { s with presences :=
        setEntryA s.presences id (objectAssignA ((lookupA s.presences id).getD []) ps) }
  | .chatsDelete ids =>
    let step := fun db id => if (chatsGet db id).isSome then chatsErase db id else db
    { s with chats := ids.foldl step s.chats }
  | .messagesUpsert msgs t => applyMessagesUpsert s msgs t

/-- A whole event stream, applied strictly in arrival order. -/
def applyEvents (dg : String → String) (sock : Option (String → Option String))
    (s : Store) (evs : List StoreEvent) : Store :=
  evs.foldl (applyEvent dg sock) s

/-! ## Shared helper facts and concrete fixtures -/

/-- A stand-in md5-base64 digest used to instantiate the external-collaborator
parameter at concrete inputs (24 characters, the length of a base64-encoded
16-byte digest). -/
def dgX : String → String := fun _ => "XXXXXXXXXXXXXXXXXXXXXXXX"

/-- The last value an `Object.assign` loop writes for a key. -/
def lastVal {α : Type} : List (String × α) → String → Option α
  | [], _ => none
  | p :: rest, k =>
    match lastVal rest k with
    | some v => some v
    | none => if p.1 = k then some p.2 else none

theorem lookupA_objectAssignA {α : Type} (u : List (String × α)) (st : List (String × α))
    (k : String) :
    lookupA (objectAssignA st u) k
      = match lastVal u k with
        | some v => some v
        | none => lookupA st k := by
  induction u generalizing st with
  | nil => simp [objectAssignA, lastVal]
  | cons p rest ih =>
    have hstep : objectAssignA st (p :: rest) = objectAssignA (setEntryA st p.1 p.2) rest := by
      simp [objectAssignA]
    rw [hstep, ih]
    cases hrest : lastVal rest k with
    | some v => simp [lastVal, hrest]
    | none =>
      by_cases hpk : p.1 = k
      · subst hpk
        simp [lastVal, hrest, lookupA_setEntryA_self]
      · simp [lastVal, hrest, hpk, lookupA_setEntryA_ne st p.1 k p.2 hpk]

theorem lastVal_eq_none_of_not_mem {α : Type} (u : List (String × α)) (k : String)
    (h : memS (u.map (·.1)) k = false) : lastVal u k = none := by
  induction u with
  | nil => simp [lastVal]
  | cons p rest ih =>
    by_cases hpk : p.1 = k
    · simp [memS, hpk] at h
    · simp only [List.map_cons, memS, hpk, if_false] at h
      simp [lastVal, ih h, hpk]

/-- C10: before any event the connection-state bag is exactly
`{ connection: 'close' }`; a present `connection.update` payload is
shallow-merged into the bag by `Object.assign` (keys it names take the
update's value, keys it does not name keep their stored value, so the initial
`connection` field survives any update not naming it), and an absent payload
leaves the store untouched. -/
theorem connection_state_init_and_shallow_merge :
    initStore.connState = [("connection", "close")] ∧
    (∀ (dg : String → String) (sock : Option (String → Option String)) (s : Store)
        (u : List (String × String)),
      (applyEvent dg sock s (.connectionUpdate (some u))).connState
        = objectAssignA s.connState u) ∧
    (∀ (dg : String → String) (sock : Option (String → Option String)) (s : Store),
      applyEvent dg sock s (.connectionUpdate none) = s) ∧
    (∀ (st u : List (String × String)) (k : String),
      memS (u.map (·.1)) k = false →
        lookupA (objectAssignA st u) k = lookupA st k) ∧
    (∀ (st u : List (String × String)) (k : String) (v : String),
      lastVal u k = some v → lookupA (objectAssignA st u) k = some v) := by
  refine ⟨rfl, fun _ _ _ _ => rfl, fun _ _ s => rfl, ?_, ?_⟩
  · intro st u k h
    rw [lookupA_objectAssignA, lastVal_eq_none_of_not_mem u k h]
  · intro st u k v h
    rw [lookupA_objectAssignA, h]

theorem connection_state_init_and_shallow_merge_witness :
    lookupA (objectAssignA [("connection", "close")] [("qr", "code")]) "connection"
        = some "close" ∧
    lookupA (objectAssignA [("connection", "close")] [("connection", "open")]) "connection"
        = some "open" :=
  ⟨connection_state_init_and_shallow_merge.2.2.2.1
      [("connection", "close")] [("qr", "code")] "connection" (by decide),
    connection_state_init_and_shallow_merge.2.2.2.2
      [("connection", "close")] [("connection", "open")] "connection" "open" (by decide)⟩

/-! ## Labels: capacity behaviour (claims C8, C9) -/

theorem lookupA_append_single_self {α : Type} (m : List (String × α)) (k : String) (v : α)
    (h : lookupA m k = none) : lookupA (m ++ [(k, v)]) k = some v := by
  induction m with
  | nil => simp [lookupA]
  | cons p rest ih =>
    by_cases hp : p.1 = k
    · simp [lookupA, hp] at h
    · simp only [lookupA, hp, if_false] at h
      simp [lookupA, hp, ih h]

theorem lookupA_append_single_ne {α : Type} (m : List (String × α)) (k k' : String) (v : α)
    (h : k ≠ k') : lookupA (m ++ [(k, v)]) k' = lookupA m k' := by
  induction m with
  | nil => simp [lookupA, h]
  | cons p rest ih =>
    by_cases hp : p.1 = k'
    · simp [lookupA, hp]
    · simp [lookupA, hp, ih]

/-- Below capacity, the `labels.edit` upsert stores the label under its id and
leaves every other id untouched. -/
theorem repoUpsertById_lookup (repo : List (String × Label)) (l : Label)
    (hcount : repoCount repo < 20) :
    lookupA (repoUpsertById repo l.id l) l.id = some l ∧
    ∀ k, k ≠ l.id → lookupA (repoUpsertById repo l.id l) k = lookupA repo k := by
  unfold repoUpsertById
  cases hp : (lookupA repo l.id) with
  | some v =>
    simp only [hp, Option.isSome_some, if_true]
    exact ⟨lookupA_setEntryA_self repo l.id l,
      fun k hk => lookupA_setEntryA_ne repo l.id k l (Ne.symm hk)⟩
  | none =>
    simp only [hp, Option.isSome_none, Bool.false_eq_true, if_false, hcount, if_true]
    exact ⟨lookupA_append_single_self repo l.id l hp,
      fun k hk => lookupA_append_single_ne repo l.id k l (Ne.symm hk)⟩

/-- C8 amended: a non-deleted `labels.edit` stores or replaces the label while
the stored count is below 20; once the count is 20 the event is rejected
outright — even when the label's id is already present, nothing is replaced. -/
theorem labels_edit_capacity (dg : String → String)
    (sock : Option (String → Option String)) (s : Store) (l : Label)
    (hdel : l.deleted = false) :
    (repoCount s.labels < 20 →
      lookupA (applyEvent dg sock s (.labelsEdit l)).labels l.id = some l ∧
      ∀ k, k ≠ l.id →
        lookupA (applyEvent dg sock s (.labelsEdit l)).labels k = lookupA s.labels k) ∧
    (20 ≤ repoCount s.labels → applyEvent dg sock s (.labelsEdit l) = s) := by
  constructor
  · intro hcount
    have : applyLabelsEdit s.labels l = repoUpsertById s.labels l.id l := by
      simp [applyLabelsEdit, hdel, hcount]
    simpa [applyEvent, this] using repoUpsertById_lookup s.labels l hcount
  · intro hcount
    have : applyLabelsEdit s.labels l = s.labels := by
      simp [applyLabelsEdit, hdel, Nat.not_lt_of_le hcount]
    simp [applyEvent, this]

/-- Label fixture `i ↦ { id := toString i, ... }`. -/
def mkLabel (i : Nat) : Label := { id := toString i, name := toString i, deleted := false }

/-- Twenty stored labels with ids `"0"` … `"19"`. -/
def labels20 : List (String × Label) := (List.range 20).map (fun i => (toString i, mkLabel i))

/-- A store already holding twenty labels. -/
def storeL20 : Store := { initStore with labels := labels20 }

/-- A re-edit of the already-stored id `"0"` with a new name. -/
def labelRenamed : Label := { id := "0", name := "renamed", deleted := false }

/-- C8 counterexample: with exactly 20 stored labels, a `labels.edit` for the
already-present id `"0"` is rejected — the store is unchanged and the renamed
label is not stored, contradicting the claim that replacement is allowed at
capacity. -/
theorem labels_edit_replace_at_capacity_cex :
    repoCount storeL20.labels = 20 ∧
    (lookupA storeL20.labels "0").isSome = true ∧
    labelRenamed.deleted = false ∧
    applyEvent dgX none storeL20 (.labelsEdit labelRenamed) = storeL20 ∧
    lookupA (applyEvent dgX none storeL20 (.labelsEdit labelRenamed)).labels "0"
      ≠ some labelRenamed := by
  refine ⟨by decide, by decide, rfl, ?_, ?_⟩ <;> decide

theorem labels_edit_capacity_witness :
    lookupA (applyEvent dgX none initStore (.labelsEdit (mkLabel 0))).labels "0"
        = some (mkLabel 0) ∧
    applyEvent dgX none storeL20 (.labelsEdit (mkLabel 0)) = storeL20 :=
  ⟨((labels_edit_capacity dgX none initStore (mkLabel 0) rfl).1 (by decide)).1,
    (labels_edit_capacity dgX none storeL20 (mkLabel 0) rfl).2 (by decide)⟩

theorem messagesUpsertStep_labels (t : String) (st : Store) (m : WAMessage) :
    (messagesUpsertStep t st m).labels = st.labels := by
  unfold messagesUpsertStep
  dsimp only
  split <;> rfl

theorem foldl_messagesUpsertStep_labels (t : String) (msgs : List WAMessage) (st : Store) :
    (msgs.foldl (messagesUpsertStep t) st).labels = st.labels := by
  induction msgs generalizing st with
  | nil => rfl
  | cons m rest ih => rw [List.foldl_cons, ih, messagesUpsertStep_labels]

theorem applyLabelsEdit_count_le (labels : List (String × Label)) (l : Label)
    (h : repoCount labels ≤ 20) : repoCount (applyLabelsEdit labels l) ≤ 20 := by
  simp only [repoCount] at h ⊢
  unfold applyLabelsEdit repoDeleteById repoUpsertById repoCount
  split
  · exact le_trans (length_eraseA_le labels l.id) h
  · split
    · split
      · rename_i hp
        rw [length_setEntryA_of_present labels l.id l hp]
        exact h
      · rename_i hc _
        rw [List.length_append, List.length_singleton]
        omega
    · exact h

theorem applyEvent_labels_count_le (dg : String → String)
    (sock : Option (String → Option String)) (s : Store) (e : StoreEvent)
    (h : repoCount s.labels ≤ 20) : repoCount (applyEvent dg sock s e).labels ≤ 20 := by
  cases e with
  | labelsEdit l => exact applyLabelsEdit_count_le s.labels l h
  | messagesUpsert msgs t =>
    unfold applyEvent applyMessagesUpsert
    by_cases ht : t = "append" ∨ t = "notify"
    · simpa [ht, foldl_messagesUpsertStep_labels] using h
    · simpa [ht] using h
  | messagingHistorySet nc ncts nms latest => simpa [applyEvent, applyHistorySet] using h
  | connectionUpdate u => simpa [applyEvent] using h
  | contactsUpsertEv cs => simpa [applyEvent] using h
  | contactsUpdateEv us => simpa [applyEvent] using h
  | chatsUpsertEv cs => simpa [applyEvent] using h
  | chatsUpdateEv us => simpa [applyEvent] using h
  | labelsAssociation t a => simpa [applyEvent] using h
  | presenceUpdate id ps => simpa [applyEvent] using h
  | chatsDelete ids => simpa [applyEvent] using h

/-- The 21 insertions of distinct labels `"0"` … `"20"`. -/
def evs21 : List StoreEvent := (List.range 21).map (fun i => .labelsEdit (mkLabel i))

/-- C9: from the empty initial store no event sequence ever pushes the stored
label count above 20; concretely, inserting 21 distinct labels via
`labels.edit` stores exactly the first 20 (ids `"0"` … `"19"` with their
original contents) and the 21st is rejected without removing or replacing
any stored label. -/
theorem labels_cap_invariant :
    (∀ (dg : String → String) (sock : Option (String → Option String))
        (evs : List StoreEvent),
      repoCount (applyEvents dg sock initStore evs).labels ≤ 20) ∧
    (applyEvents dgX none initStore evs21).labels = labels20 ∧
    repoCount (applyEvents dgX none initStore evs21).labels = 20 ∧
    lookupA (applyEvents dgX none initStore evs21).labels "20" = none := by
  refine ⟨?_, by decide, by decide, by decide⟩
  intro dg sock evs
  have main : ∀ (evs : List StoreEvent) (s : Store), repoCount s.labels ≤ 20 →
      repoCount (applyEvents dg sock s evs).labels ≤ 20 := by
    intro evs
    induction evs with
    | nil => intro s h; exact h
    | cons e rest ih =>
      intro s h
      exact ih (applyEvent dg sock s e) (applyEvent_labels_count_le dg sock s e h)
  exact main evs initStore (by decide)

/-! ## The chat sort key: collision and conditional injectivity (claim C2) -/

/-- The timestamp actually rendered into the key: `none` when the field is
absent or zero (both falsy in JS). -/
def tsVal (c : Chat) : Option Nat :=
  match c.conversationTimestamp with
  | some t => if t = 0 then none else some t
  | none => none

theorem hexRepAux_length_le : ∀ (fuel k n : Nat), n < 16 ^ (k + 1) →
    (hexRepAux fuel n).length ≤ k + 1 := by
  intro fuel
  induction fuel with
  | zero => intro k n _; simp [hexRepAux]
  | succ fuel ih =>
    intro k n hn
    unfold hexRepAux
    by_cases h16 : n < 16
    · simp [h16]
    · simp only [h16, if_false]
      cases k with
      | zero =>
        exfalso
        apply h16
        simpa using hn
      | succ k =>
        have h' : n < 16 ^ (k + 1) * 16 := by
          calc n < 16 ^ (k + 2) := hn
          _ = 16 ^ (k + 1) * 16 := by ring
        have hdiv : n / 16 < 16 ^ (k + 1) :=
          (Nat.div_lt_iff_lt_mul (by norm_num)).mpr h'
        have hrec := ih k (n / 16) hdiv
        rw [List.length_append]
        simpa using hrec

theorem pinBit_data_length (pin : Bool) (c : Chat) :
    (pinBit pin c).data.length = if pin then 1 else 0 := by
  cases pin
  · rfl
  · unfold pinBit
    by_cases h : c.pinned <;> simp [h]

theorem archBit_data_length (c : Chat) : (archBit c).data.length = 1 := by
  unfold archBit
  by_cases h : c.archived <;> simp [h]

theorem chatTsKey_data_length_of_none (c : Chat) (h : tsVal c = none) :
    (chatTsKey c).data.length = 0 := by
  unfold chatTsKey
  unfold tsVal at h
  cases hct : c.conversationTimestamp with
  | none => rfl
  | some t =>
    rw [hct] at h
    by_cases ht : t = 0
    · simp [ht]
    · simp [ht] at h

theorem chatTsKey_data_length_of_bounded (c : Chat) (t : Nat) (h : tsVal c = some t)
    (hb : t < 16 ^ 8) : (chatTsKey c).data.length = 8 := by
  unfold chatTsKey
  unfold tsVal at h
  cases hct : c.conversationTimestamp with
  | none => rw [hct] at h; exact absurd h (by simp)
  | some t' =>
    rw [hct] at h
    by_cases ht : t' = 0
    · simp [ht] at h
    · simp only [ht, if_false, Option.some_inj] at h
      subst h
      simp only [ht, if_false]
      show (padStart (hexRep t') 8 '0').length = 8
      unfold padStart
      rw [List.length_append, List.length_replicate]
      have hlen : (hexRep t').length ≤ 8 := by
        have := hexRepAux_length_le (t' + 1) 7 t' (by simpa using hb)
        simpa [hexRep] using this
      omega

/-- C2 amended: the composite key separates chats with distinct ids whenever
the two chats are uniform in their timestamp component — both lacking a
rendered `conversationTimestamp`, or both carrying one below `16^8` (the
8-hex-digit range `padStart` normalizes).  When one chat has a timestamp and
the other does not, distinct ids can collide (see the counterexample). -/
theorem waChatKey_inj_uniform_ts (pin : Bool) (c₁ c₂ : Chat) (hid : c₁.id ≠ c₂.id)
    (hts : (tsVal c₁ = none ∧ tsVal c₂ = none) ∨
      ∃ t₁ t₂, tsVal c₁ = some t₁ ∧ tsVal c₂ = some t₂ ∧ t₁ < 16 ^ 8 ∧ t₂ < 16 ^ 8) :
    waChatKey pin c₁ ≠ waChatKey pin c₂ := by
  intro heq
  have hdata : (pinBit pin c₁ ++ archBit c₁ ++ chatTsKey c₁).data ++ c₁.id.data
      = (pinBit pin c₂ ++ archBit c₂ ++ chatTsKey c₂).data ++ c₂.id.data := by
    rw [← String.data_append, ← String.data_append]
    exact congrArg String.data heq
  have hlen : (pinBit pin c₁ ++ archBit c₁ ++ chatTsKey c₁).data.length
      = (pinBit pin c₂ ++ archBit c₂ ++ chatTsKey c₂).data.length := by
    simp only [String.data_append, List.length_append]
    rw [pinBit_data_length, pinBit_data_length, archBit_data_length, archBit_data_length]
    rcases hts with ⟨h1, h2⟩ | ⟨t₁, t₂, h1, h2, hb1, hb2⟩
    · rw [chatTsKey_data_length_of_none c₁ h1, chatTsKey_data_length_of_none c₂ h2]
    · rw [chatTsKey_data_length_of_bounded c₁ t₁ h1 hb1,
        chatTsKey_data_length_of_bounded c₂ t₂ h2 hb2]
  exact hid (String.ext (List.append_inj hdata hlen).2)

/-- A chat with no timestamp whose id begins with 8 hex digits. -/
def chatCexA : Chat :=
  { id := "00000001ab", pinned := false, archived := false,
    conversationTimestamp := none, unreadCount := none, name := none }

/-- A chat with timestamp 1 and the short id `"ab"`. -/
def chatCexB : Chat :=
  { id := "ab", pinned := false, archived := false,
    conversationTimestamp := some 1, unreadCount := none, name := none }

/-- C2 counterexample: two chats with distinct ids whose composite keys are
the identical string `"0100000001ab"` — one id absorbs the other's padded
timestamp — so the comparator does return equality and the claimed total
order fails when one chat has a `conversationTimestamp` and the other does
not. -/
theorem waChatKey_collision_cex :
    chatCexA.id ≠ chatCexB.id ∧
    waChatKey true chatCexA = waChatKey true chatCexB ∧
    waChatKey true chatCexA = "0100000001ab" := by
  refine ⟨by decide, by decide, by decide⟩

theorem waChatKey_inj_uniform_ts_witness :
    waChatKey true
        { id := "A", pinned := false, archived := false,
          conversationTimestamp := some 5, unreadCount := none, name := none }
      ≠ waChatKey true
        { id := "B", pinned := false, archived := false,
          conversationTimestamp := some 6, unreadCount := none, name := none } :=
  waChatKey_inj_uniform_ts true _ _ (by decide)
    (Or.inr ⟨5, 6, by decide, by decide, by decide, by decide⟩)

/-! ## `chats.update` semantics (claim C3) -/

theorem applyChatUpdate_id (c : Chat) (u : ChatUpdate) : (applyChatUpdate c u).id = c.id := rfl

theorem chatsGet_chatsMutate_self (db : List Chat) (u : ChatUpdate) (c : Chat)
    (h : chatsGet db u.id = some c) :
    chatsGet (chatsMutate db u) u.id = some (applyChatUpdate c u) := by
  induction db with
  | nil => simp [chatsGet] at h
  | cons x rest ih =>
    by_cases hx : x.id = u.id
    · simp only [chatsGet, hx, if_true, Option.some_inj] at h
      subst h
      simp [chatsMutate, hx, chatsGet, applyChatUpdate_id]
    · simp only [chatsGet, hx, if_false] at h
      simp [chatsMutate, hx, chatsGet, ih h]

/-- A chat `"A"` holding 2 unread messages. -/
def chatEx3 : Chat :=
  { id := "A", pinned := false, archived := false,
    conversationTimestamp := none, unreadCount := some 2, name := none }

/-- A store holding only `chatEx3`. -/
def storeEx3 : Store := { initStore with chats := [chatEx3] }

/-- A `chats.update` for `"A"` carrying only an `unreadCount`. -/
def upEx3 (v : Int) : ChatUpdate :=
  { id := "A", pinned := none, archived := none,
    conversationTimestamp := none, unreadCount := some v, name := none }

/-- C3: a `chats.update` on an existing chat merges field-wise with a
positive incoming `unreadCount` added to the stored count and any other
present value written literally; concretely 2 then +3 gives 5 and a
subsequent 0 overwrites to 0.  A `chats.update` for an unknown chat id
leaves the whole store unchanged and creates no chat. -/
theorem chats_update_unread_semantics (dg : String → String)
    (sock : Option (String → Option String)) (s : Store) (u : ChatUpdate) :
    (chatsGet s.chats u.id = none → applyEvent dg sock s (.chatsUpdateEv [u]) = s) ∧
    (∀ c, chatsGet s.chats u.id = some c →
      chatsGet (applyEvent dg sock s (.chatsUpdateEv [u])).chats u.id
          = some (applyChatUpdate c u) ∧
      ∀ v, u.unreadCount = some v →
        (applyChatUpdate c u).unreadCount
            = some (if v > 0 then c.unreadCount.getD 0 + v else v)) ∧
    ((applyEvents dgX none storeEx3
        [.chatsUpdateEv [upEx3 3], .chatsUpdateEv [upEx3 0]]).chats.map (·.unreadCount)
      = [some 0] ∧
     (applyEvent dgX none storeEx3 (.chatsUpdateEv [upEx3 3])).chats.map (·.unreadCount)
      = [some 5]) := by
  refine ⟨?_, ?_, by decide, by decide⟩
  · intro h
    have hnone : (chatsGet s.chats u.id).isSome = false := by simp [h]
    simp [applyEvent, applyChatsUpdateOne, hnone]
  · intro c hc
    have hsome : (chatsGet s.chats u.id).isSome = true := by simp [hc]
    constructor
    · simp only [applyEvent, List.foldl_cons, List.foldl_nil, applyChatsUpdateOne, hsome,
        if_true]
      exact chatsGet_chatsMutate_self s.chats u c hc
    · intro v hv
      simp [applyChatUpdate, hv]

theorem chats_update_unread_semantics_witness :
    applyEvent dgX none initStore (.chatsUpdateEv [upEx3 7]) = initStore ∧
    chatsGet (applyEvent dgX none storeEx3 (.chatsUpdateEv [upEx3 3])).chats "A"
      = some (applyChatUpdate chatEx3 (upEx3 3)) ∧
    (applyChatUpdate chatEx3 (upEx3 3)).unreadCount = some 5 :=
  ⟨(chats_update_unread_semantics dgX none initStore (upEx3 7)).1 (by decide),
    ((chats_update_unread_semantics dgX none storeEx3 (upEx3 3)).2.1 chatEx3 (by decide)).1,
    by
      have := ((chats_update_unread_semantics dgX none storeEx3 (upEx3 3)).2.1 chatEx3
        (by decide)).2 3 (by decide)
      simpa using this⟩

/-! ## `contacts.update` semantics (claims C5, C6, C7) -/

/-- A stored contact named `"old"`. -/
def contactC5 : Contact := { id := "123@s.whatsapp.net", name := some "old", imgUrl := none }

/-- A store holding only `contactC5`. -/
def storeC5 : Store := { initStore with contacts := [("123@s.whatsapp.net", contactC5)] }

/-- A `contacts.update` renaming that contact to `"new"`. -/
def updC5 : ContactUpdate := { id := "123@s.whatsapp.net", name := some "new", imgUrl := none }

/-- C5: the final `Object.assign(contacts[contact.id], contact)` at source
line 124 merges the matched contact into itself, so the update's remaining
fields are never applied — a `contacts.update` carrying `name: "new"` for a
stored contact named `"old"` leaves the store completely unchanged, for every
digest and socket collaborator. -/
theorem contacts_update_merge_dropped (dg : String → String)
    (sock : Option (String → Option String)) :
    applyEvent dg sock storeC5 (.contactsUpdateEv [updC5]) = storeC5 ∧
    (lookupA (applyEvent dg sock storeC5 (.contactsUpdateEv [updC5])).contacts
        "123@s.whatsapp.net").map (·.name) = some (some "old") ∧
    updC5.name = some "new" :=
  ⟨rfl, rfl, rfl⟩

/-- A stored contact with a profile picture. -/
def contactC6 : Contact := { id := "a@s.whatsapp.net", name := none, imgUrl := some "pic" }

/-- A store holding only `contactC6`. -/
def storeC6 : Store := { initStore with contacts := [("a@s.whatsapp.net", contactC6)] }

/-- An update matching no stored contact (its id is neither stored nor a
3-character fingerprint). -/
def updC6a : ContactUpdate := { id := "nobody@x", name := none, imgUrl := none }

/-- An update that, processed alone, removes `contactC6`'s picture. -/
def updC6b : ContactUpdate := { id := "a@s.whatsapp.net", name := none, imgUrl := some "removed" }

/-- C6 counterexample: a batch whose first entry matches nothing leaves the
store entirely unchanged — the second entry, which alone would delete the
stored `imgUrl`, is never processed, contradicting the claim that the
remaining entries of the batch are still applied. -/
theorem contacts_update_batch_cex :
    applyEvent dgX none storeC6 (.contactsUpdateEv [updC6a, updC6b]) = storeC6 ∧
    (lookupA storeC6.contacts "a@s.whatsapp.net").map (·.imgUrl) = some (some "pic") ∧
    (lookupA (applyEvent dgX none storeC6 (.contactsUpdateEv [updC6b])).contacts
        "a@s.whatsapp.net").map (·.imgUrl) = some none := by
  refine ⟨by decide, by decide, by decide⟩

/-- C6 amended: a `contacts.update` entry that matches no stored contact —
neither by direct id nor by fingerprint (nor the `|| ''` fallback) — causes
no mutation, and the `return` at source line 122 aborts the whole batch:
the remaining entries are not processed either. -/
theorem contacts_update_unmatched_aborts (dg : String → String)
    (sock : Option (String → Option String)) (s : Store) (u : ContactUpdate)
    (rest : List ContactUpdate) (h : findContactKey dg s.contacts u.id = none) :
    applyEvent dg sock s (.contactsUpdateEv (u :: rest)) = s := by
  have hloop : contactsUpdateLoop dg sock s.contacts (u :: rest) = s.contacts := by
    simp [contactsUpdateLoop, h]
  simp [applyEvent, hloop]

theorem contacts_update_unmatched_aborts_witness :
    applyEvent dgX none storeC6 (.contactsUpdateEv [updC6a]) = storeC6 :=
  contacts_update_unmatched_aborts dgX none storeC6 updC6a [] (by decide)

/-- C7: on a matched `contacts.update` entry, `imgUrl = "changed"` stores the
`profilePictureUrl` collaborator's answer for the contact's id (and leaves the
field unset when the socket is absent), `imgUrl = "removed"` deletes the
field, and any other value leaves the contact untouched; the adjusted contact
is what the store keeps for that key. -/
theorem contacts_update_imgurl_sentinel (dg : String → String)
    (sock : Option (String → Option String)) (cts : List (String × Contact))
    (u : ContactUpdate) (rest : List ContactUpdate) (key : String) (c : Contact)
    (h1 : findContactKey dg cts u.id = some key) (h2 : lookupA cts key = some c) :
    contactsUpdateLoop dg sock cts (u :: rest)
        = contactsUpdateLoop dg sock (setEntryA cts key (applySentinel sock c u)) rest ∧
    lookupA (contactsUpdateLoop dg sock cts [u]) key = some (applySentinel sock c u) ∧
    (∀ f, sock = some f → u.imgUrl = some "changed" →
        (applySentinel sock c u).imgUrl = f c.id) ∧
    (sock = none → u.imgUrl = some "changed" → (applySentinel sock c u).imgUrl = none) ∧
    (u.imgUrl = some "removed" → (applySentinel sock c u).imgUrl = none) ∧
    (u.imgUrl ≠ some "changed" → u.imgUrl ≠ some "removed" → applySentinel sock c u = c) := by
  refine ⟨?_, ?_, ?_, ?_, ?_, ?_⟩
  · simp [contactsUpdateLoop, h1, h2]
  · simp [contactsUpdateLoop, h1, h2, lookupA_setEntryA_self]
  · intro f hf hch
    subst hf
    simp [applySentinel, hch]
  · intro hf hch
    subst hf
    simp [applySentinel, hch]
  · intro hrm
    by_cases hch : u.imgUrl = some "changed"
    · rw [hch] at hrm
      exact absurd hrm (by decide)
    · simp [applySentinel, hch, hrm]
  · intro hch hrm
    simp [applySentinel, hch, hrm]

/-- A stored contact with an old picture URL. -/
def contactC7 : Contact := { id := "c@s.whatsapp.net", name := none, imgUrl := some "old-url" }

/-- A one-contact map for the sentinel witness. -/
def ctsC7 : List (String × Contact) := [("c@s.whatsapp.net", contactC7)]

/-- A socket whose `profilePictureUrl` answers `fetched:<id>`. -/
def sockC7 : Option (String → Option String) := some (fun id => some ("fetched:" ++ id))

/-- An update carrying the `"changed"` sentinel. -/
def updC7 : ContactUpdate := { id := "c@s.whatsapp.net", name := none, imgUrl := some "changed" }

theorem contacts_update_imgurl_sentinel_witness :
    lookupA (contactsUpdateLoop dgX sockC7 ctsC7 [updC7]) "c@s.whatsapp.net"
        = some (applySentinel sockC7 contactC7 updC7) ∧
    (applySentinel sockC7 contactC7 updC7).imgUrl = some ("fetched:" ++ "c@s.whatsapp.net") :=
  ⟨(contacts_update_imgurl_sentinel dgX sockC7 ctsC7 updC7 [] "c@s.whatsapp.net" contactC7
      (by decide) (by decide)).2.1,
    (contacts_update_imgurl_sentinel dgX sockC7 ctsC7 updC7 [] "c@s.whatsapp.net" contactC7
      (by decide) (by decide)).2.2.1 (fun id => some ("fetched:" ++ id)) rfl rfl⟩

/-! ## `messages.upsert` chat-list keying (claim C4) -/

/-- A message in chat `1234567890@s.whatsapp.net`. -/
def msgC4 : WAMessage :=
  { key := { remoteJid := "1234567890@s.whatsapp.net", id := "M1", fromMe := false },
    content := "hello" }

/-- C4: `messages.upsert` indexes the messages map with the object returned
by `jidDecode` (source line 188), which JS coerces to the property key
`"[object Object]"`, while `messaging-history.set` indexes with the raw
`msg.key.remoteJid` (source line 91).  The same message therefore lands in
two different map entries depending on the delivering event — and every
`messages.upsert` message of every chat shares the single
`"[object Object]"` entry — refuting the claim that both event kinds feed one
per-chat list. -/
theorem messages_upsert_key_mismatch :
    lookupA (applyEvent dgX none initStore (.messagesUpsert [msgC4] "notify")).messages
        "1234567890@s.whatsapp.net" = none ∧
    lookupA (applyEvent dgX none initStore (.messagesUpsert [msgC4] "notify")).messages
        "[object Object]" = some [msgC4] ∧
    lookupA (applyEvent dgX none initStore (.messagesUpsert [msgC4] "append")).messages
        "[object Object]" = some [msgC4] ∧
    lookupA (applyEvent dgX none initStore
        (.messagingHistorySet [] [] [msgC4] true)).messages
        "1234567890@s.whatsapp.net" = some [msgC4] ∧
    jsKeyOfDecoded (jidDecode msgC4.key.remoteJid) ≠ msgC4.key.remoteJid := by
  refine ⟨by decide, by decide, by decide, by decide, by decide⟩

/-! ## `messaging-history.set` with `isLatest` (claim C1) -/

/-- Reference per-id view of the contact merge loop: fold the batch entries
for one id over the previously stored record. -/
def contactAfterBatch (old : Option Contact) (ncts : List Contact) (id : String) :
    Option Contact :=
  ncts.foldl (fun acc c => if c.id = id then some (spreadContact acc c) else acc) old

theorem lookupA_contactsUpsertFn (ncts : List Contact) (m : List (String × Contact))
    (id : String) :
    lookupA (contactsUpsertFn m ncts) id = contactAfterBatch (lookupA m id) ncts id := by
  induction ncts generalizing m with
  | nil => rfl
  | cons c rest ih =>
    have hstep : contactsUpsertFn m (c :: rest)
        = contactsUpsertFn (setEntryA m c.id (spreadContact (lookupA m c.id) c)) rest := by
      simp [contactsUpsertFn]
    have hbatch : contactAfterBatch (lookupA m id) (c :: rest) id
        = contactAfterBatch
            (if c.id = id then some (spreadContact (lookupA m id) c) else lookupA m id)
            rest id := by
      simp [contactAfterBatch]
    rw [hstep, ih, hbatch]
    by_cases hc : c.id = id
    · subst hc
      rw [lookupA_setEntryA_self]
      simp
    · rw [lookupA_setEntryA_ne m c.id id _ hc]
      simp [hc]

theorem contactAfterBatch_of_not_has (ncts : List Contact) (old : Option Contact)
    (id : String) (h : batchHasId ncts id = false) :
    contactAfterBatch old ncts id = old := by
  induction ncts generalizing old with
  | nil => rfl
  | cons c rest ih =>
    by_cases hc : c.id = id
    · simp [batchHasId, hc] at h
    · simp only [batchHasId, hc, if_false] at h
      simpa [contactAfterBatch, hc] using ih old h

theorem contactAfterBatch_isSome_mono (ncts : List Contact) (old : Option Contact)
    (id : String) (h : old.isSome) : (contactAfterBatch old ncts id).isSome := by
  induction ncts generalizing old with
  | nil => exact h
  | cons c rest ih =>
    show (contactAfterBatch (if c.id = id then some (spreadContact old c) else old) rest id).isSome
    by_cases hc : c.id = id
    · exact ih _ (by simp [hc])
    · exact ih _ (by simp [hc, h])

theorem contactAfterBatch_isSome_of_has (ncts : List Contact) (old : Option Contact)
    (id : String) (h : batchHasId ncts id = true) :
    (contactAfterBatch old ncts id).isSome := by
  induction ncts generalizing old with
  | nil => simp [batchHasId] at h
  | cons c rest ih =>
    show (contactAfterBatch (if c.id = id then some (spreadContact old c) else old) rest id).isSome
    by_cases hc : c.id = id
    · exact contactAfterBatch_isSome_mono rest _ id (by simp [hc])
    · simp only [batchHasId, hc, if_false] at h
      simpa [hc] using ih old h

theorem lookupA_foldl_eraseA (ks : List String) (m : List (String × Contact)) (k : String) :
    lookupA (ks.foldl eraseA m) k = if memS ks k = true then none else lookupA m k := by
  induction ks generalizing m with
  | nil => simp [memS]
  | cons x xs ih =>
    show lookupA (xs.foldl eraseA (eraseA m x)) k = _
    rw [ih]
    by_cases hx : x = k
    · subst hx
      by_cases hm : memS xs x = true
      · simp [memS, hm]
      · simp [memS, hm, lookupA_eraseA_self]
    · by_cases hm : memS xs k = true
      · simp [memS, hx, hm]
      · simp [memS, hx, hm, lookupA_eraseA_ne m x k hx]

theorem memS_survivorKeys (cts : List (String × Contact)) (ncts : List Contact) (k : String) :
    memS (survivorKeys cts ncts) k = true
      ↔ ((lookupA cts k).isSome ∧ batchHasId ncts k = false) := by
  induction cts with
  | nil => simp [survivorKeys, memS, lookupA]
  | cons p rest ih =>
    by_cases hb : batchHasId ncts p.1 = true
    · have hsurv : survivorKeys (p :: rest) ncts = survivorKeys rest ncts := by
        simp [survivorKeys, hb]
      rw [hsurv, ih]
      by_cases hpk : p.1 = k
      · subst hpk
        simp [lookupA, hb]
      · simp [lookupA, hpk]
    · have hsurv : survivorKeys (p :: rest) ncts = p.1 :: survivorKeys rest ncts := by
        simp only [Bool.not_eq_true] at hb
        simp [survivorKeys, hb]
      rw [hsurv]
      by_cases hpk : p.1 = k
      · subst hpk
        simp only [Bool.not_eq_true] at hb
        simp [memS, lookupA, hb]
      · simp only [memS, hpk, if_false]
        rw [ih]
        simp [lookupA, hpk]

theorem msgUpsert_mem (l : List WAMessage) (m x : WAMessage) (p : Bool)
    (h : x ∈ msgUpsert l m p) : x = m ∨ x ∈ l := by
  unfold msgUpsert at h
  by_cases hany : l.any (fun y => waMessageID y == waMessageID m)
  · simp only [hany, if_true] at h
    rcases List.mem_map.mp h with ⟨y, hy, hxy⟩
    by_cases hid : waMessageID y = waMessageID m
    · left
      rw [← hxy]
      simp [hid]
    · right
      rw [← hxy]
      simpa [hid] using hy
  · simp only [hany, if_false] at h
    cases p with
    | true =>
      rcases List.mem_cons.mp h with h | h
      · exact Or.inl h
      · exact Or.inr h
    | false =>
      rcases List.mem_append.mp h with h | h
      · exact Or.inr h
      · exact Or.inl (by simpa using h)

theorem lookupA_historyMsgStep_isSome (mm : List (String × List WAMessage))
    (m : WAMessage) (k : String) (h : (lookupA mm k).isSome) :
    (lookupA (historyMsgStep mm m) k).isSome := by
  unfold historyMsgStep
  by_cases hk : m.key.remoteJid = k
  · subst hk
    simp [lookupA_setEntryA_self]
  · rwa [lookupA_setEntryA_ne mm m.key.remoteJid k _ hk]

theorem foldl_historyMsgStep_isSome_mono (ms : List WAMessage)
    (mm : List (String × List WAMessage)) (k : String) (h : (lookupA mm k).isSome) :
    (lookupA (ms.foldl historyMsgStep mm) k).isSome := by
  induction ms generalizing mm with
  | nil => exact h
  | cons m rest ih => exact ih _ (lookupA_historyMsgStep_isSome mm m k h)

theorem foldl_historyMsgStep_isSome : ∀ (ms : List WAMessage)
    (mm : List (String × List WAMessage)) (m : WAMessage), m ∈ ms →
    (lookupA (ms.foldl historyMsgStep mm) m.key.remoteJid).isSome := by
  intro ms
  induction ms with
  | nil => intro mm m h; cases h
  | cons m0 rest ih =>
    intro mm m h
    rw [List.foldl_cons]
    rcases List.mem_cons.mp h with h | h
    · subst h
      apply foldl_historyMsgStep_isSome_mono
      unfold historyMsgStep
      simp [lookupA_setEntryA_self]
    · exact ih _ m h

theorem foldl_historyMsgStep_ok (univ : List WAMessage) : ∀ (ms : List WAMessage)
    (mm : List (String × List WAMessage)), (∀ m ∈ ms, m ∈ univ) →
    (∀ jid l, lookupA mm jid = some l → ∀ m ∈ l, m ∈ univ ∧ m.key.remoteJid = jid) →
    ∀ jid l, lookupA (ms.foldl historyMsgStep mm) jid = some l →
      ∀ m ∈ l, m ∈ univ ∧ m.key.remoteJid = jid := by
  intro ms
  induction ms with
  | nil => intro mm _ hbase; exact hbase
  | cons m0 rest ih =>
    intro mm hsub hbase
    have hm0 : m0 ∈ univ := hsub m0 (List.mem_cons_self m0 rest)
    have hsub' : ∀ m ∈ rest, m ∈ univ := fun m hm => hsub m (List.mem_cons_of_mem m0 hm)
    rw [List.foldl_cons]
    refine ih (historyMsgStep mm m0) hsub' ?_
    intro jid l hl x hx
    unfold historyMsgStep at hl
    by_cases hk : m0.key.remoteJid = jid
    · subst hk
      rw [lookupA_setEntryA_self] at hl
      have hx' : x ∈ msgUpsert ((lookupA mm m0.key.remoteJid).getD []) m0 true := by
        rw [Option.some.inj hl]
        exact hx
      rcases msgUpsert_mem _ m0 x true hx' with h | h
      · subst h
        exact ⟨hm0, rfl⟩
      · cases hold : lookupA mm m0.key.remoteJid with
        | none =>
          rw [hold] at h
          cases h
        | some old =>
          rw [hold] at h
          exact hbase m0.key.remoteJid old hold x h
    · rw [lookupA_setEntryA_ne mm m0.key.remoteJid jid _ hk] at hl
      exact hbase jid l hl x hx

theorem chatsGet_append_single (db : List Chat) (c : Chat) (id : String) :
    chatsGet (db ++ [c]) id
      = match chatsGet db id with
        | some x => some x
        | none => if c.id = id then some c else none := by
  induction db with
  | nil => simp [chatsGet]
  | cons x rest ih =>
    by_cases hx : x.id = id
    · simp [chatsGet, hx]
    · simp [chatsGet, hx, ih]

theorem chatsInsertIfAbsent_mem : ∀ (cs db : List Chat) (c : Chat),
    c ∈ chatsInsertIfAbsent db cs → c ∈ db ∨ c ∈ cs := by
  intro cs
  induction cs with
  | nil => intro db c h; exact Or.inl h
  | cons c0 rest ih =>
    intro db c h
    have hstep : chatsInsertIfAbsent db (c0 :: rest)
        = chatsInsertIfAbsent (if (chatsGet db c0.id).isSome then db else db ++ [c0]) rest :=
      rfl
    rw [hstep] at h
    rcases ih _ c h with h' | h'
    · by_cases hg : (chatsGet db c0.id).isSome
      · rw [if_pos hg] at h'
        exact Or.inl h'
      · rw [if_neg hg] at h'
        rcases List.mem_append.mp h' with h'' | h''
        · exact Or.inl h''
        · have hc : c = c0 := by simpa using h''
          subst hc
          exact Or.inr (List.mem_cons_self c rest)
    · exact Or.inr (List.mem_cons_of_mem c0 h')

theorem chatsGet_insertIfAbsent_isSome : ∀ (cs db : List Chat) (id : String),
    (chatsGet (chatsInsertIfAbsent db cs) id).isSome
      ↔ ((chatsGet db id).isSome ∨ ∃ c ∈ cs, c.id = id) := by
  intro cs
  induction cs with
  | nil => intro db id; simp [chatsInsertIfAbsent]
  | cons c0 rest ih =>
    intro db id
    have hstep : chatsInsertIfAbsent db (c0 :: rest)
        = chatsInsertIfAbsent (if (chatsGet db c0.id).isSome then db else db ++ [c0]) rest :=
      rfl
    rw [hstep, ih]
    by_cases hg : (chatsGet db c0.id).isSome
    · rw [if_pos hg]
      constructor
      · rintro (h | ⟨c, hc, hcid⟩)
        · exact Or.inl h
        · exact Or.inr ⟨c, List.mem_cons_of_mem c0 hc, hcid⟩
      · rintro (h | ⟨c, hc, hcid⟩)
        · exact Or.inl h
        · rcases List.mem_cons.mp hc with hce | hc'
          · subst hce
            left
            rw [← hcid]
            exact hg
          · exact Or.inr ⟨c, hc', hcid⟩
    · rw [if_neg hg]
      have happ : (chatsGet (db ++ [c0]) id).isSome
          ↔ ((chatsGet db id).isSome ∨ c0.id = id) := by
        rw [chatsGet_append_single]
        cases h : chatsGet db id with
        | some x => simp
        | none =>
          by_cases hc0 : c0.id = id <;> simp [hc0]
      rw [happ]
      constructor
      · rintro ((h | h) | ⟨c, hc, hcid⟩)
        · exact Or.inl h
        · exact Or.inr ⟨c0, List.mem_cons_self c0 rest, h⟩
        · exact Or.inr ⟨c, List.mem_cons_of_mem c0 hc, hcid⟩
      · rintro (h | ⟨c, hc, hcid⟩)
        · exact Or.inl (Or.inl h)
        · rcases List.mem_cons.mp hc with hce | hc'
          · subst hce
            exact Or.inl (Or.inr hcid)
          · exact Or.inr ⟨c, hc', hcid⟩

/-- C1: applying `messaging-history.set` with `isLatest` first clears the
chat collection and every per-chat message list, so the resulting chats are
exactly `insertIfAbsent` of the batch into the empty collection (a chat id is
stored iff the batch carries it, and every stored chat record comes from the
batch), every message stored afterwards is a batch message filed under its
own `remoteJid` (each batch message's chat list exists), and the contacts are
the field-wise merge of the batch over the prior map with every previously
known id absent from the batch deleted. -/
theorem history_set_latest_reset (dg : String → String)
    (sock : Option (String → Option String)) (s : Store) (nc : List Chat)
    (ncts : List Contact) (nms : List WAMessage) :
    (applyEvent dg sock s (.messagingHistorySet nc ncts nms true)).chats
        = chatsInsertIfAbsent [] nc ∧
    (∀ c, c ∈ (applyEvent dg sock s (.messagingHistorySet nc ncts nms true)).chats →
        c ∈ nc) ∧
    (∀ id,
      (chatsGet (applyEvent dg sock s (.messagingHistorySet nc ncts nms true)).chats
          id).isSome
        ↔ ∃ c ∈ nc, c.id = id) ∧
    (∀ jid l,
      lookupA (applyEvent dg sock s (.messagingHistorySet nc ncts nms true)).messages
          jid = some l →
        ∀ m ∈ l, m ∈ nms ∧ m.key.remoteJid = jid) ∧
    (∀ m ∈ nms,
      (lookupA (applyEvent dg sock s (.messagingHistorySet nc ncts nms true)).messages
          m.key.remoteJid).isSome) ∧
    (∀ id,
      lookupA (applyEvent dg sock s (.messagingHistorySet nc ncts nms true)).contacts id
        = if batchHasId ncts id = true
          then contactAfterBatch (lookupA s.contacts id) ncts id
          else none) := by
  refine ⟨rfl, ?_, ?_, ?_, ?_, ?_⟩
  · intro c h
    rcases chatsInsertIfAbsent_mem nc [] c h with h' | h'
    · cases h'
    · exact h'
  · intro id
    have := chatsGet_insertIfAbsent_isSome nc [] id
    simpa [chatsGet] using this
  · intro jid l hl
    exact foldl_historyMsgStep_ok nms nms [] (fun m hm => hm)
      (by intro jid' l' h'; simp [lookupA] at h') jid l hl
  · intro m hm
    exact foldl_historyMsgStep_isSome nms [] m hm
  · intro id
    show lookupA ((survivorKeys s.contacts ncts).foldl eraseA
        (contactsUpsertFn s.contacts ncts)) id = _
    rw [lookupA_foldl_eraseA]
    by_cases hb : batchHasId ncts id = true
    · have hm : memS (survivorKeys s.contacts ncts) id = false := by
        cases hmm : memS (survivorKeys s.contacts ncts) id with
        | true => exact absurd ((memS_survivorKeys s.contacts ncts id).mp hmm).2 (by simp [hb])
        | false => rfl
      simp [hm, hb, lookupA_contactsUpsertFn]
    · have hbf : batchHasId ncts id = false := by simpa using hb
      cases hmm : memS (survivorKeys s.contacts ncts) id with
      | true => simp [hbf]
      | false =>
        have hnone : lookupA s.contacts id = none := by
          cases hlk : lookupA s.contacts id with
          | none => rfl
          | some v =>
            exfalso
            have hmt : memS (survivorKeys s.contacts ncts) id = true :=
              (memS_survivorKeys s.contacts ncts id).mpr ⟨by simp [hlk], hbf⟩
            rw [hmm] at hmt
            cases hmt
        simp [hmm, hbf, lookupA_contactsUpsertFn,
          contactAfterBatch_of_not_has ncts _ id hbf, hnone]

/-- A pre-existing chat for the bootstrap-reset witness. -/
def chatC1old : Chat :=
  { id := "oldchat", pinned := false, archived := false,
    conversationTimestamp := none, unreadCount := none, name := none }

/-- A pre-existing message in that chat. -/
def msgC1old : WAMessage :=
  { key := { remoteJid := "oldchat", id := "mo", fromMe := false }, content := "x" }

/-- A pre-existing contact. -/
def contactC1old : Contact := { id := "oldcontact", name := some "n", imgUrl := none }

/-- A store already holding a chat, a message list and a contact. -/
def storeC1 : Store :=
  { initStore with
    chats := [chatC1old]
    messages := [("oldchat", [msgC1old])]
    contacts := [("oldcontact", contactC1old)] }

/-- The fresh chat delivered by the bootstrap batch. -/
def chatC1new : Chat :=
  { id := "C", pinned := false, archived := false,
    conversationTimestamp := none, unreadCount := none, name := none }

/-- The fresh message delivered by the bootstrap batch. -/
def msgC1new : WAMessage :=
  { key := { remoteJid := "C", id := "mc", fromMe := false }, content := "y" }

theorem history_set_latest_reset_witness :
    (lookupA (applyEvent dgX none storeC1
        (.messagingHistorySet [chatC1new] [] [msgC1new] true)).messages "C").isSome ∧
    chatC1new ∈ [chatC1new] :=
  ⟨(history_set_latest_reset dgX none storeC1 [chatC1new] [] [msgC1new]).2.2.2.2.1
      msgC1new (by decide),
    (history_set_latest_reset dgX none storeC1 [chatC1new] [] [msgC1new]).2.1
      chatC1new (by decide)⟩
